import Mathlib

/-!
# Verification of the switcheroo window-inventory and focus-switch engine

A shallow embedding of the two low-level modules of the repository
(`src/macos.rs` and `src/windows.rs`) together with proofs of the
specification's claims about them.

Conventions of the embedding:

* Rust `HashMap` values become association lists `List (κ × ν)`; `lookupA`
  returns the value of the first matching key, `insertA` replaces any
  existing binding (HashMap insert), `modifyA` rewrites a binding in place
  (HashMap `and_modify` / `get_mut`), `eraseA` deletes a binding, and
  `extendA` folds `insertA` over new bindings (HashMap `extend`).
* OS calls are oracles: each fallible native query becomes an explicit
  field of an environment structure (`Except`/`Option` valued, or a
  function from the probe index for the bounded accessibility scan).
* Opaque foreign objects (`AXUIElement`, process-serial numbers) become
  abstract numeric handles; only their identity is ever used by the code.
* `f64` window geometry becomes `Rat`; the only arithmetic performed on it
  by the code (`origin + size / 2`) is exact on the dyadic values involved.
-/

/-- Association-list lookup: value of the first pair whose key matches,
mirroring a `HashMap` `get`. -/
def lookupA {κ ν : Type} [DecidableEq κ] (m : List (κ × ν)) (k : κ) : Option ν :=
  (m.find? (fun p => p.1 = k)).map (·.2)

/-- Remove every binding of key `k` (a `HashMap` never holds two). -/
def eraseA {κ ν : Type} [DecidableEq κ] (m : List (κ × ν)) (k : κ) : List (κ × ν) :=
  m.filter (fun p => ¬ p.1 = k)

/-- Insert with replacement, mirroring a `HashMap` `insert`. -/
def insertA {κ ν : Type} [DecidableEq κ] (m : List (κ × ν)) (k : κ) (v : ν) : List (κ × ν) :=
  eraseA m k ++ [(k, v)]

/-- Rewrite the binding of `k` in place when present, mirroring a `HashMap`
`and_modify` / `get_mut` followed by a mutation. -/
def modifyA {κ ν : Type} [DecidableEq κ] (m : List (κ × ν)) (k : κ) (f : ν → ν) :
    List (κ × ν) :=
  m.map (fun p => if p.1 = k then (p.1, f p.2) else p)

/-- Merge new bindings into a map, later bindings winning, mirroring a
`HashMap` `extend`. -/
def extendA {κ ν : Type} [DecidableEq κ] (m new : List (κ × ν)) : List (κ × ν) :=
  new.foldl (fun acc p => insertA acc p.1 p.2) m

/-- The keys of an association list. -/
def keysA {κ ν : Type} (m : List (κ × ν)) : List κ :=
  m.map (·.1)

section MapLemmas

variable {κ ν : Type} [DecidableEq κ]

theorem lookupA_nil (k : κ) : lookupA ([] : List (κ × ν)) k = none := rfl

theorem lookupA_cons (p : κ × ν) (m : List (κ × ν)) (k : κ) :
    lookupA (p :: m) k = if p.1 = k then some p.2 else lookupA m k := by
  by_cases h : p.1 = k <;> simp [lookupA, List.find?, h]

theorem mem_keysA_of_lookupA {m : List (κ × ν)} {k : κ} {v : ν}
    (h : lookupA m k = some v) : k ∈ keysA m := by
  induction m with
  | nil => simp [lookupA] at h
  | cons p rest ih =>
    rw [lookupA_cons] at h
    by_cases hp : p.1 = k
    · simp [keysA, hp.symm]
    · simp [hp] at h
      simp [keysA]
      exact Or.inr (by simpa [keysA] using ih h)

theorem lookupA_eraseA (m : List (κ × ν)) (k x : κ) :
    lookupA (eraseA m k) x = if x = k then none else lookupA m x := by
  induction m with
  | nil => by_cases h : x = k <;> simp [lookupA, eraseA, h]
  | cons p rest ih =>
    by_cases hpk : p.1 = k
    · have hdrop : eraseA (p :: rest) k = eraseA rest k := by simp [eraseA, hpk]
      rw [hdrop, ih, lookupA_cons]
      by_cases hxk : x = k
      · simp [hxk]
      · have hpx : ¬ p.1 = x := fun h2 => hxk (h2.symm.trans hpk)
        simp [hxk, hpx]
    · have hkeep : eraseA (p :: rest) k = p :: eraseA rest k := by simp [eraseA, hpk]
      rw [hkeep, lookupA_cons, lookupA_cons, ih]
      by_cases hpx : p.1 = x
      · by_cases hxk : x = k
        · exact absurd (hpx.trans hxk) hpk
        · simp [hpx, hxk]
      · simp [hpx]

theorem lookupA_modifyA (m : List (κ × ν)) (k : κ) (f : ν → ν) (x : κ) :
    lookupA (modifyA m k f) x =
      if x = k then (lookupA m x).map f else lookupA m x := by
  induction m with
  | nil => by_cases h : x = k <;> simp [lookupA, modifyA, h]
  | cons p rest ih =>
    by_cases hpk : p.1 = k
    · have hmod : modifyA (p :: rest) k f = (p.1, f p.2) :: modifyA rest k f := by
        simp [modifyA, hpk]
      rw [hmod, lookupA_cons, lookupA_cons, ih]
      by_cases hpx : p.1 = x
      · have hxk : x = k := hpx.symm.trans hpk
        simp [hpx, hxk]
      · have : ((p.1, f p.2) : κ × ν).1 = p.1 := rfl
        simp [hpx]
    · have hmod : modifyA (p :: rest) k f = p :: modifyA rest k f := by
        simp [modifyA, hpk]
      rw [hmod, lookupA_cons, lookupA_cons, ih]
      by_cases hpx : p.1 = x
      · have hxk : ¬ x = k := fun h2 => hpk (hpx.trans h2)
        simp [hpx, hxk]
      · simp [hpx]

theorem keysA_modifyA (m : List (κ × ν)) (k : κ) (f : ν → ν) :
    keysA (modifyA m k f) = keysA m := by
  induction m with
  | nil => rfl
  | cons p rest ih =>
    by_cases hpk : p.1 = k <;> simp [modifyA, keysA, hpk] at * <;> simpa [modifyA, keysA] using ih

theorem keysA_eraseA_subset (m : List (κ × ν)) (k : κ) :
    ∀ x ∈ keysA (eraseA m k), x ∈ keysA m := by
  intro x hx
  simp only [keysA, eraseA, List.mem_map] at hx ⊢
  obtain ⟨p, hp, hpx⟩ := hx
  exact ⟨p, (List.mem_filter.mp hp).1, hpx⟩

theorem keysA_filter_subset (m : List (κ × ν)) (p : κ × ν → Bool) :
    ∀ x ∈ keysA (m.filter p), x ∈ keysA m := by
  intro x hx
  simp only [keysA, List.mem_map] at hx ⊢
  obtain ⟨q, hq, hqx⟩ := hx
  exact ⟨q, List.mem_of_mem_filter hq, hqx⟩

theorem keysA_insertA_subset (m : List (κ × ν)) (k : κ) (v : ν) :
    ∀ x ∈ keysA (insertA m k v), x ∈ keysA m ∨ x = k := by
  intro x hx
  simp only [insertA, keysA, List.map_append, List.mem_append] at hx
  rcases hx with hx | hx
  · exact Or.inl (keysA_eraseA_subset m k x hx)
  · simp at hx
    exact Or.inr hx

theorem keysA_extendA_subset (m new : List (κ × ν)) :
    ∀ x ∈ keysA (extendA m new), x ∈ keysA m ∨ x ∈ keysA new := by
  induction new generalizing m with
  | nil => intro x hx; exact Or.inl hx
  | cons p rest ih =>
    intro x hx
    rcases ih (insertA m p.1 p.2) x hx with h | h
    · rcases keysA_insertA_subset m p.1 p.2 x h with h2 | h2
      · exact Or.inl h2
      · exact Or.inr (by simp [keysA, h2])
    · exact Or.inr (by simp [keysA] at h ⊢; exact Or.inr h)

theorem keysA_insertA_nodup (m : List (κ × ν)) (k : κ) (v : ν)
    (h : (keysA m).Nodup) : (keysA (insertA m k v)).Nodup := by
  have herase : (keysA (eraseA m k)).Nodup := by
    have hsub : (eraseA m k).Sublist m := List.filter_sublist m
    have hsub2 : (keysA (eraseA m k)).Sublist (keysA m) := by
      simpa [keysA] using hsub.map (·.1)
    exact List.Nodup.sublist hsub2 h
  have hknot : k ∉ keysA (eraseA m k) := by
    intro hk
    simp only [keysA, eraseA, List.mem_map] at hk
    obtain ⟨p, hp, hpk⟩ := hk
    have := (List.mem_filter.mp hp).2
    simp [hpk] at this
  simp only [insertA, keysA, List.map_append]
  refine List.Nodup.append herase (by simp) ?_
  intro a ha hb
  simp only [List.map_cons, List.map_nil, List.mem_singleton] at hb
  subst hb
  exact hknot (by simpa [keysA] using ha)

theorem modifyA_of_not_mem {m : List (κ × ν)} {k : κ} (f : ν → ν)
    (h : k ∉ keysA m) : modifyA m k f = m := by
  induction m with
  | nil => rfl
  | cons p rest ih =>
    simp only [keysA, List.map_cons, List.mem_cons] at h
    push_neg at h
    simp [modifyA, Ne.symm h.1]
    simpa [modifyA, keysA] using ih (by simpa [keysA] using h.2)

end MapLemmas

/-! ## Shared OS-level value types -/

/-- `CGError` result codes: the code only distinguishes `Success` from
everything else. -/
inductive CGError where
  | success : CGError
  | failure : Nat → CGError
deriving DecidableEq

/-- Window geometry (`CGRect`), with `f64` fields embedded as `Rat`. -/
structure CGRect where
  x : Rat
  y : Rat
  w : Rat
  h : Rat
deriving DecidableEq

/-- `i64 as u32`: the low 32 bits of a window id, as the Rust casts in
`Window::focus` / `focus_ax` compute them. -/
def idU32 (n : Int) : Nat :=
  (n % (2 ^ 32 : Nat)).toNat

/-- Byte `k` of the native-endian (little-endian on macOS) encoding of a
machine integer value. -/
def byteOfNat (n k : Nat) : Nat :=
  n / 256 ^ k % 256

namespace macos

/-! ## `src/macos.rs` -/

/-- A virtual-desktop descriptor (`struct Space`). -/
structure Space where
  display : Nat
  display_uuid : String
  index : Option Nat
  id : Int
deriving DecidableEq

/-- A window of the simpler (non-caching) variant (`struct Window` in
`macos.rs`): title, window-server id, bounds, assigned space. -/
structure Window where
  title : String
  id : Int
  bounds : CGRect
  space : Space
deriving DecidableEq

/-! ### Key-window event record (`Window::make_key_window`) -/

/-- Byte `i` of the 0xF8-byte event record as `make_key_window` lays it
out: `bytes[0x04] = 0xf8` (record size), `bytes[0x3a] = 0x10` (record
type), window id bytes at `0x3c..=0x3f`, `0xff` over `0x20..0x30`, the
flavor byte at `0x08`, zero elsewhere. -/
def recordByte (wid flavor i : Nat) : Nat :=
  if i = 0x04 then 0xf8
  else if i = 0x08 then flavor
  else if 0x20 ≤ i ∧ i < 0x30 then 0xff
  else if i = 0x3a then 0x10
  else if 0x3c ≤ i ∧ i ≤ 0x3f then byteOfNat wid (i - 0x3c)
  else 0

/-- The full 0xF8-byte event record posted by `make_key_window`. -/
def buildKeyEventRecord (wid flavor : Nat) : List Nat :=
  (List.range 0xf8).map (recordByte wid flavor)

/-- `Window::make_key_window`: build the event record, post it with flavor
byte `0x01`, and only if that post succeeded, post it again with flavor
byte `0x02`; return the first non-success result code, together with the
list of records actually posted.  `postRes n` is the oracle for the result
of the `n`-th `SLPSPostEventRecordTo` call. -/
def make_key_window (postRes : Nat → CGError) (wid : Nat) :
    CGError × List (List Nat) :=
  let down := buildKeyEventRecord wid 0x01
  match postRes 0 with
  | .failure c => (.failure c, [down])
  | .success =>
    let up := buildKeyEventRecord wid 0x02
    (postRes 1, [down, up])

/-! ### Focus-switch protocol (`Window::focus` and `Window::focus_ax`) -/

/-- Observable OS requests issued during a focus switch; a run of the
protocol is embedded as the list of these actions in issue order. -/
inductive FAct where
  | getProcessForPID : Int → FAct
  | setFrontProcess : Nat → Nat → FAct
  | postEvent : List Nat → FAct
  | activateApp : FAct
  | axProbe : Nat → FAct
  | raiseAX : Nat → FAct
  | warpCursor : Rat → Rat → FAct
deriving DecidableEq

/-- Environment of oracle results consumed by `macos.rs`'s `Window::focus`:
`GetProcessForPID`'s status, `_SLPSSetFrontProcessWithOptions`'s status,
the per-post `SLPSPostEventRecordTo` statuses, the freshly queried
`SLSGetActiveSpace` value, and the accessibility probe used by `focus_ax`
(`probeAx i` is the window id reported for probe index `i`, or `none` when
the element is null or `_AXUIElementGetWindow` fails). -/
structure FocusEnv where
  psnRes : Int
  frontRes : CGError
  postRes : Nat → CGError
  activeSpace : Int
  probeAx : Nat → Option Nat

/-- `Window::focus_ax`: probe accessibility elements at indices `i`,
`i+1`, … while fuel lasts; on the first element whose reported window id
equals the target, perform `AXRaise` on it and stop.  The raised element
is identified in the trace by its probe index. -/
def focus_ax (probeAx : Nat → Option Nat) (selfId : Nat) :
    Nat → Nat → List FAct
  | 0, _ => []
  | fuel + 1, i =>
    FAct.axProbe i ::
      match probeAx i with
      | some wid =>
        if wid = selfId then [FAct.raiseAX i]
        else focus_ax probeAx selfId fuel (i + 1)
      | none => focus_ax probeAx selfId fuel (i + 1)

/-- `macos.rs` `Window::focus`: resolve the PSN, set front process with
the window id hint and option `0x200`, run `make_key_window`, then compare
the window's space id with the active space — equal issues
`activateWithOptions`, different runs the `focus_ax` probe/raise path —
and finally warp the cursor to the bounds' center.  Returns the result
together with the trace of actions issued. -/
def focus (env : FocusEnv) (pid : Int) (w : Window) :
    Except String Unit × List FAct :=
  let t0 := [FAct.getProcessForPID pid]
  if env.psnRes ≠ 0 then (.error "Couldn't get PSN for PID", t0)
  else
    let t1 := t0 ++ [FAct.setFrontProcess (idU32 w.id) 0x200]
    match env.frontRes with
    | .failure c => (.error ("Setting front process failed with: " ++ toString c), t1)
    | .success =>
      let posted := make_key_window env.postRes (idU32 w.id)
      let t2 := t1 ++ posted.2.map FAct.postEvent
      if posted.1 ≠ CGError.success then (.error "Failed at setting key window.", t2)
      else
        let t3 := t2 ++
          (if w.space.id = env.activeSpace then [FAct.activateApp]
           else focus_ax env.probeAx (idU32 w.id) 100 0)
        (.ok (), t3 ++ [FAct.warpCursor (w.bounds.x + w.bounds.w / 2)
                                        (w.bounds.y + w.bounds.h / 2)])

/-! ### Handle Resolver (spec §4.3) -/

/-- Modelled from the spec: the "small fixed set of accepted values" for
the subrole attribute that qualifies a probed accessibility object as a
standard window (§4.3); the concrete member strings are not recorded in
the spec, only that the set is small and fixed. -/
def acceptedSubroles : List String :=
  ["AXStandardWindow", "AXDialog", "AXSystemDialog"]

/-- One probe outcome of the Handle Resolver: given the still-unresolved
target ids and the accumulator, record the probed object (reported window
id, subrole, handle) only when its id is still unresolved and its subrole
is accepted, removing the id from the remaining set. -/
def resolveStep (remaining : List Nat) (acc : List (Nat × Nat)) :
    Option (Nat × String × Nat) → List Nat × List (Nat × Nat)
  | none => (remaining, acc)
  | some (wid, sub, h) =>
    if wid ∈ remaining ∧ sub ∈ acceptedSubroles then
      (remaining.erase wid, acc ++ [(wid, h)])
    else (remaining, acc)

/-- Modelled from the spec: the bounded probe loop of `resolve_ax_for_pid`
(the Handle Resolver, §4.3), whose body is absent from `src/` (only its
caller in `windows.rs` is present).  Iterates candidate indices while fuel
lasts, stopping early once the remaining set is empty; returns the
accumulated (window id → handle) bindings and the number of indices
actually probed.  `probe i` is the oracle for requesting a control object
at index `i`: `none` for a null element or failed window-id query,
otherwise the reported window id, subrole and handle. -/
def resolveAux (probe : Nat → Option (Nat × String × Nat)) :
    Nat → Nat → List Nat → List (Nat × Nat) → List (Nat × Nat) × Nat
  | 0, _, _, acc => (acc, 0)
  | fuel + 1, i, remaining, acc =>
    if remaining.isEmpty then (acc, 0)
    else
      let step := resolveStep remaining acc (probe i)
      let rest := resolveAux probe fuel (i + 1) step.1 step.2
      (rest.1, rest.2 + 1)

/-- Modelled from the spec: `resolve_ax_for_pid` — resolve control handles
for the requested window ids of one process by probing indices 0 up to 99
inclusive (§4.3). -/
def resolve_ax_for_pid (probe : Nat → Option (Nat × String × Nat))
    (wids : List Nat) : List (Nat × Nat) :=
  (resolveAux probe 100 0 wids []).1

/-- The number of candidate indices the Handle Resolver actually probes
for one process. -/
def resolveProbeCount (probe : Nat → Option (Nat × String × Nat))
    (wids : List Nat) : Nat :=
  (resolveAux probe 100 0 wids []).2

end macos

namespace macos

/-! ### Space/Display Catalog and Window/App Enumerator
(`get_open_app_windows`, `get_apps`) -/

/-- Icon output type: egui's `ColorImage`, embedded as a size plus the
flat list of RGBA bytes of its pixels. -/
structure ColorImage where
  width : Nat
  height : Nat
  pixels : List Nat
deriving DecidableEq

/-- Expand packed RGB triples to RGBA by appending full opacity, the egui
`ColorImage::from_rgb` pixel conversion. -/
def expandRGB : List Nat → List Nat
  | r :: g :: b :: rest => r :: g :: b :: 255 :: expandRGB rest
  | _ => []

/-- egui `ColorImage::from_rgb`: RGB triples expanded with alpha 255. -/
def ColorImage.from_rgb (width height : Nat) (rgb : List Nat) : ColorImage :=
  ⟨width, height, expandRGB rgb⟩

/-- egui `ColorImage::from_rgba_unmultiplied`: the RGBA byte buffer taken
as the pixel data unchanged. -/
def ColorImage.from_rgba (width height : Nat) (rgba : List Nat) : ColorImage :=
  ⟨width, height, rgba⟩

/-- The data `ns_image_to_color` reads off the rasterized `CGImage`:
dimensions, row stride, bit depth and the raw byte buffer (`none` when
`CGDataProvider::data` fails). -/
structure CGImageData where
  width : Nat
  height : Nat
  bytesPerRow : Nat
  bitsPerPixel : Nat
  dataRes : Option (List Nat)
deriving DecidableEq

/-- `ns_image_to_color`: obtain the raw data, then branch on the reported
bits-per-pixel — 24 expands RGB to RGBA, 32 passes the buffer through
unchanged, 64 decodes 16-bit float channels pixel by pixel, and any other
depth yields `none`.  `f16` is the oracle for the two-byte half-float →
clamped/scaled `u8` conversion of the 64-bit branch. -/
def ns_image_to_color (f16 : Nat → Nat → Nat) (img : CGImageData) :
    Option ColorImage :=
  match img.dataRes with
  | none => none
  | some raw =>
    match img.bitsPerPixel with
    | 24 => some (ColorImage.from_rgb img.width img.height raw)
    | 32 => some (ColorImage.from_rgba img.width img.height raw)
    | 64 =>
      let rgba :=
        (List.range img.height).flatMap fun y =>
          (List.range img.width).flatMap fun x =>
            let offset := y * img.bytesPerRow + x * 8
            if offset + 7 < raw.length then
              [f16 (raw.getD offset 0) (raw.getD (offset + 1) 0),
               f16 (raw.getD (offset + 2) 0) (raw.getD (offset + 3) 0),
               f16 (raw.getD (offset + 4) 0) (raw.getD (offset + 5) 0),
               f16 (raw.getD (offset + 6) 0) (raw.getD (offset + 7) 0)]
            else []
      some ⟨img.width, img.height, rgba⟩
    | _ => none

/-- A `NSRunningApplication` as `get_apps` consumes it: process id,
activation policy, terminated flag, localized name, and the result of
rasterizing its icon (`none` when `icon()` returns nothing). -/
structure RunningApp where
  pid : Int
  policyRegular : Bool
  terminated : Bool
  name : Option String
  icon : Option CGImageData

/-- An `App` of the simpler variant (`struct App` in `macos.rs`). -/
structure App where
  pid : Int
  name : String
  windows : List Window
  icon : Option ColorImage
deriving DecidableEq

/-- `get_apps`: keep running applications with regular activation policy
that are not terminated; name defaults to the empty string; the icon is
normalized through `ns_image_to_color`. -/
def get_apps (f16 : Nat → Nat → Nat) (apps : List RunningApp) :
    List (Int × App) :=
  apps.foldl
    (fun m a =>
      if a.policyRegular = false ∨ a.terminated = true then m
      else insertA m a.pid ⟨a.pid, a.name.getD "", [], a.icon.bind (ns_image_to_color f16)⟩)
    []

/-- One space dictionary of `SLSCopyManagedDisplaySpaces`, together with
the window ids `SLSCopyWindowsWithOptionsAndTags` reports for it (tag
options `0x2`). -/
structure SpaceDict where
  id64 : Int
  stype : Int
  windowIds : List Int

/-- One display dictionary of `SLSCopyManagedDisplaySpaces`. -/
structure DisplayDict where
  uuid : String
  spaces : List SpaceDict

/-- The catalog build of `get_open_app_windows` (lines 243–302): walk
displays in enumeration order (1-based display index), assign ordinal
indices from a running counter that increments only on type-0 ("user")
spaces, and insert every reported window id into the visible map — later
insertions overwriting earlier ones. -/
def buildVisible (displays : List DisplayDict) : List (Int × Space) :=
  ((displays.enum.map fun p => (p.2, p.1)).foldl
    (fun (st : List (Int × Space) × Nat) di =>
      di.1.spaces.foldl
        (fun (st : List (Int × Space) × Nat) sp =>
          let cnt2 := if sp.stype = 0 then st.2 + 1 else st.2
          let index : Option Nat := if sp.stype = 0 then some (st.2 + 1) else none
          (sp.windowIds.foldl
            (fun v wid => insertA v wid ⟨di.2 + 1, di.1.uuid, index, sp.id64⟩)
            st.1,
           cnt2))
        st)
    ([], 0)).1

/-- One entry of the `CGWindowListCopyWindowInfo` result as the enumerator
reads it: layer, owning pid, optional title, window number, and the
bounds dictionary (`none` when
`CGRectMakeWithDictionaryRepresentation` fails on it). -/
structure WinDictEntry where
  layer : Int
  ownerPID : Int
  name : Option String
  number : Int
  bounds : Option CGRect

/-- The window loop of `get_open_app_windows` (lines 310–349): for each
on-screen window entry, skip it unless its layer is 0, its owning pid is a
kept app and its id is (still) in the visible map; a malformed bounds
dictionary fails the whole enumeration; otherwise attach the window to its
app and remove its id from the visible map. -/
def processWindows (visible : List (Int × Space)) (m : List (Int × App)) :
    List WinDictEntry → Except String (List (Int × App))
  | [] => .ok m
  | e :: rest =>
    match lookupA m e.ownerPID, lookupA visible e.number with
    | some _, some sp =>
      if e.layer ≠ 0 then processWindows visible m rest
      else
        match e.bounds with
        | none => .error "CGRectMakeWithDictionaryRepresentation failed."
        | some b =>
          processWindows (eraseA visible e.number)
            (modifyA m e.ownerPID fun app =>
              { app with windows := app.windows ++ [⟨e.name.getD "", e.number, b, sp⟩] })
            rest
    | _, _ => processWindows visible m rest

/-- The OS state `get_open_app_windows` observes: the managed display
spaces, the on-screen window list (`none` when
`CGWindowListCopyWindowInfo` fails), the running applications, and the
half-float conversion oracle for icon decoding. -/
structure EnumEnv where
  displays : List DisplayDict
  windowList : Option (List WinDictEntry)
  runningApps : List RunningApp
  f16 : Nat → Nat → Nat

/-- `get_open_app_windows`: build the app map and the space catalog's
visible map, then fold the on-screen window list through the
filter/attach loop. -/
def get_open_app_windows (env : EnumEnv) : Except String (List (Int × App)) :=
  let app_map := get_apps env.f16 env.runningApps
  let visible := buildVisible env.displays
  match env.windowList with
  | none => .error "CGWindowListCopyWindowInfo failed."
  | some entries => processWindows visible app_map entries

/-- All window ids published across every app of an inventory, in
enumeration order. -/
def allWindowIds (m : List (Int × App)) : List Int :=
  m.flatMap fun p => p.2.windows.map (·.id)

end macos

namespace winmgr

/-! ## `src/windows.rs` — the caching `Manager` variant

The spec (§9) describes this variant as canonical.  Its `macos`-module
helpers `get_visible_window_ids`, `get_window_info_list`,
`resolve_ax_for_pid`, `ns_image_to_rgba` and the free `make_key_window`
are absent from `src/` (only this caller survives); they enter the
embedding as oracle fields of `RefreshEnv` / the spec-modelled
`macos.resolve_ax_for_pid`. -/

/-- One entry of `get_window_info_list`'s output as `Manager::refresh`
consumes it: owning pid, window id, title. -/
structure WindowInfo where
  pid : Int
  id : Nat
  title : String
deriving DecidableEq

/-- Normalized RGBA icon bytes (`macos::IconData`), opaque to `refresh`. -/
structure IconData where
  bytes : List Nat
deriving DecidableEq

/-- A running application as the refresh loop reads it; `iconRGBA` is the
combined result of `app.icon()` and `ns_image_to_rgba`. -/
structure RunningApp where
  pid : Int
  policyRegular : Bool
  terminated : Bool
  name : Option String
  iconRGBA : Option IconData
deriving DecidableEq

/-- A published window (`struct Window` in `windows.rs`): its control
handle `ax_element` is a mandatory field — a `Window` value cannot exist
without a resolved handle. -/
structure Window where
  title : String
  id : Nat
  ax_element : Nat
deriving DecidableEq

/-- A published application (`struct App` in `windows.rs`). -/
structure App where
  pid : Int
  name : String
  windows : List Window
deriving DecidableEq

/-- The `Manager`'s owned state: published inventory, Handle Cache
(window id → control handle) and Icon Cache (pid → RGBA icon). -/
structure MState where
  app_map : List (Int × App)
  ax_cache : List (Nat × Nat)
  icon_cache : List (Int × IconData)
deriving DecidableEq

/-- The OS state one `Manager::refresh` call observes:
`get_visible_window_ids`'s result, `get_window_info_list`'s result as a
function of the visible ids, the running-application list, and the
per-process accessibility probe oracle feeding `resolve_ax_for_pid`. -/
structure RefreshEnv where
  visibleRes : Except String (List Nat)
  windowInfoRes : List Nat → Except String (List WindowInfo)
  runningApps : List RunningApp
  probe : Int → Nat → Option (Nat × String × Nat)

/-- The app-construction loop of `refresh` (lines 36–60): for each running
application whose pid owns a live window and which is a regular,
non-terminated app, record its icon in the Icon Cache when absent, and
insert a fresh `App` with an empty window list. -/
def buildApps (apps : List RunningApp) (active_pids : List Int)
    (icons : List (Int × IconData)) :
    List (Int × App) × List (Int × IconData) :=
  apps.foldl
    (fun (st : List (Int × App) × List (Int × IconData)) a =>
      if a.pid ∉ active_pids then st
      else if a.policyRegular = false ∨ a.terminated = true then st
      else
        let icons2 :=
          if lookupA st.2 a.pid = none then
            match a.iconRGBA with
            | some data => insertA st.2 a.pid data
            | none => st.2
          else st.2
        (insertA st.1 a.pid ⟨a.pid, a.name.getD "", []⟩, icons2))
    (([], icons))

/-- The grouping of still-uncached window ids by owning pid
(lines 65–70): a `HashMap<i32, HashSet<u32>>` built from the window-info
list, keeping only ids absent from the (already evicted) Handle Cache. -/
def groupUncached (infos : List WindowInfo) (ax : List (Nat × Nat)) :
    List (Int × List Nat) :=
  infos.foldl
    (fun acc info =>
      if lookupA ax info.id = none then
        match lookupA acc info.pid with
        | some wids =>
          if info.id ∈ wids then acc
          else modifyA acc info.pid (fun l => l ++ [info.id])
        | none => acc ++ [(info.pid, [info.id])]
      else acc)
    []

/-- The attach loop of `refresh` (lines 77–87): a window-info entry
becomes a published `Window` only when the Handle Cache holds its id and
the app map holds its pid. -/
def attachWindows (infos : List WindowInfo) (ax : List (Nat × Nat))
    (m : List (Int × App)) : List (Int × App) :=
  infos.foldl
    (fun m info =>
      match lookupA ax info.id with
      | some axe =>
        modifyA m info.pid fun app =>
          { app with windows := app.windows ++ [⟨info.title, info.id, axe⟩] }
      | none => m)
    m

/-- `Manager::refresh`: query the visible window ids and the window-info
list (either failure aborts before any state is touched), rebuild the app
map and fetch missing icons, evict Handle/Icon Cache entries whose keys
left the live sets, resolve handles for uncached windows grouped by pid,
attach resolved windows, and replace the published app map.  Returns the
call's result paired with the `Manager`'s state as the caller observes it
afterwards. -/
def refresh (env : RefreshEnv) (st : MState) : Except String Unit × MState :=
  match env.visibleRes with
  | .error e => (.error ("Failed to get visible window IDs: " ++ e), st)
  | .ok visible =>
    match env.windowInfoRes visible with
    | .error e => (.error ("Failed to get window info list: " ++ e), st)
    | .ok window_infos =>
      let active_pids := window_infos.map (·.pid)
      let active_wids := window_infos.map (·.id)
      let built := buildApps env.runningApps active_pids st.icon_cache
      let ax1 := st.ax_cache.filter (fun p => p.1 ∈ active_wids)
      let icons1 := built.2.filter (fun p => p.1 ∈ active_pids)
      let uncached := groupUncached window_infos ax1
      let ax2 := uncached.foldl
        (fun ax g => extendA ax (macos.resolve_ax_for_pid (env.probe g.1) g.2)) ax1
      let app_map := attachWindows window_infos ax2 built.1
      (.ok (), ⟨app_map, ax2, icons1⟩)

/-- Oracle results consumed by `windows.rs`'s `Window::focus`; its
`SLSGetWindowBounds` call can fail, unlike the simpler variant which had
the bounds stored in the `Window`. -/
structure FocusEnv where
  psnRes : Int
  frontRes : CGError
  postRes : Nat → CGError
  boundsRes : Except Unit CGRect

/-- `windows.rs` `Window::focus` (lines 130–172): resolve the PSN, set
front process, run `make_key_window`, then perform `AXRaise` on the cached
`ax_element` unconditionally — no space comparison and no
`activateWithOptions` call exist in this variant — then query the window
bounds and warp the cursor to their center. -/
def focus (env : FocusEnv) (pid : Int) (w : Window) :
    Except String Unit × List macos.FAct :=
  let t0 := [macos.FAct.getProcessForPID pid]
  if env.psnRes ≠ 0 then (.error "Couldn't get PSN for PID", t0)
  else
    let t1 := t0 ++ [macos.FAct.setFrontProcess w.id 0x200]
    match env.frontRes with
    | .failure c => (.error ("Setting front process failed with: " ++ toString c), t1)
    | .success =>
      let posted := macos.make_key_window env.postRes w.id
      let t2 := t1 ++ posted.2.map macos.FAct.postEvent
      if posted.1 ≠ CGError.success then (.error "Failed at setting key window.", t2)
      else
        let t3 := t2 ++ [macos.FAct.raiseAX w.ax_element]
        match env.boundsRes with
        | .error _ => (.error "Could not get window bounds", t3)
        | .ok b =>
          (.ok (), t3 ++ [macos.FAct.warpCursor (b.x + b.w / 2) (b.y + b.h / 2)])

end winmgr

/-! ## Further map lemmas used by the refresh proofs -/

theorem lookupA_append {κ ν : Type} [DecidableEq κ] (l1 l2 : List (κ × ν)) (x : κ) :
    lookupA (l1 ++ l2) x =
      match lookupA l1 x with
      | some v => some v
      | none => lookupA l2 x := by
  induction l1 with
  | nil => simp [lookupA_nil]
  | cons p rest ih =>
    rw [List.cons_append, lookupA_cons, lookupA_cons]
    by_cases hpx : p.1 = x <;> simp [hpx, ih]

theorem lookupA_insertA {κ ν : Type} [DecidableEq κ] (m : List (κ × ν)) (k : κ) (v : ν)
    (x : κ) :
    lookupA (insertA m k v) x = if x = k then some v else lookupA m x := by
  rw [insertA, lookupA_append, lookupA_eraseA]
  by_cases hxk : x = k
  · simp [hxk, lookupA_cons]
  · have hkx : ¬ k = x := fun h => hxk h.symm
    simp only [if_neg hxk, lookupA_cons, lookupA_nil, if_neg hkx]
    cases lookupA m x <;> simp

theorem keysA_filter_mem {κ ν : Type} [DecidableEq κ] (m : List (κ × ν)) (S : List κ) :
    ∀ x ∈ keysA (m.filter (fun p => p.1 ∈ S)), x ∈ S := by
  intro x hx
  simp only [keysA, List.mem_map] at hx
  obtain ⟨q, hq, hqx⟩ := hx
  have := List.mem_filter.mp hq
  simpa [hqx] using this.2

namespace macos

/-- Every key the resolver loop accumulates was either already in the
accumulator or among the still-unresolved target ids. -/
theorem resolveAux_keysA (probe : Nat → Option (Nat × String × Nat)) :
    ∀ fuel i remaining acc x,
      x ∈ keysA (resolveAux probe fuel i remaining acc).1 →
      x ∈ keysA acc ∨ x ∈ remaining := by
  intro fuel
  induction fuel with
  | zero => intro i remaining acc x hx; exact Or.inl hx
  | succ fuel ih =>
    intro i remaining acc x hx
    rw [resolveAux] at hx
    by_cases hrem : remaining.isEmpty
    · simp only [hrem, if_true] at hx
      exact Or.inl hx
    · simp only [hrem, if_false] at hx
      rcases ih (i + 1) _ _ x hx with h | h
      · cases hp : probe i with
        | none => simp [resolveStep, hp] at h; exact Or.inl h
        | some t =>
          obtain ⟨wid, sub, hdl⟩ := t
          by_cases hcond : wid ∈ remaining ∧ sub ∈ acceptedSubroles
          · simp only [resolveStep, hp, if_pos hcond] at h
            simp only [keysA, List.map_append, List.mem_append] at h
            rcases h with h | h
            · exact Or.inl h
            · simp at h
              subst h
              exact Or.inr hcond.1
          · simp [resolveStep, hp, hcond] at h
            exact Or.inl h
      · cases hp : probe i with
        | none => simp [resolveStep, hp] at h; exact Or.inr h
        | some t =>
          obtain ⟨wid, sub, hdl⟩ := t
          by_cases hcond : wid ∈ remaining ∧ sub ∈ acceptedSubroles
          · simp only [resolveStep, hp, if_pos hcond] at h
            exact Or.inr (List.erase_subset _ _ h)
          · simp [resolveStep, hp, hcond] at h
            exact Or.inr h

/-- Keys returned by the spec-modelled Handle Resolver are requested ids. -/
theorem resolve_keysA_subset (probe : Nat → Option (Nat × String × Nat))
    (wids : List Nat) :
    ∀ x ∈ keysA (resolve_ax_for_pid probe wids), x ∈ wids := by
  intro x hx
  rcases resolveAux_keysA probe 100 0 wids [] x hx with h | h
  · simp [keysA] at h
  · exact h

end macos

namespace winmgr

/-- Apps constructed during the refresh app loop have empty window lists. -/
theorem buildApps_windows_nil (apps : List RunningApp) (act : List Int)
    (icons : List (Int × IconData)) :
    ∀ pid app, lookupA (buildApps apps act icons).1 pid = some app →
      app.windows = [] := by
  suffices h : ∀ (m : List (Int × App)) (ic : List (Int × IconData)),
      (∀ pid app, lookupA m pid = some app → app.windows = []) →
      ∀ pid app,
        lookupA (apps.foldl
          (fun (st : List (Int × App) × List (Int × IconData)) a =>
            if a.pid ∉ act then st
            else if a.policyRegular = false ∨ a.terminated = true then st
            else
              let icons2 :=
                if lookupA st.2 a.pid = none then
                  match a.iconRGBA with
                  | some data => insertA st.2 a.pid data
                  | none => st.2
                else st.2
              (insertA st.1 a.pid ⟨a.pid, a.name.getD "", []⟩, icons2))
          ((m, ic))).1 pid = some app → app.windows = [] by
    intro pid app hl
    exact h [] icons (by intro pid app hx; simp [lookupA] at hx) pid app hl
  induction apps with
  | nil => intro m ic hm pid app hl; exact hm pid app hl
  | cons a rest ih =>
    intro m ic hm pid app hl
    simp only [List.foldl_cons] at hl
    by_cases h1 : a.pid ∉ act
    · exact ih m ic hm pid app (by simpa [h1] using hl)
    · by_cases h2 : a.policyRegular = false ∨ a.terminated = true
      · exact ih m ic hm pid app (by simpa [h1, h2] using hl)
      · refine ih _ _ ?_ pid app (by simpa [h1, h2] using hl)
        intro pid2 app2 hl2
        rw [lookupA_insertA] at hl2
        by_cases hp : pid2 = a.pid
        · simp [hp] at hl2
          simp [hl2.symm]
        · exact hm pid2 app2 (by simpa [hp] using hl2)

/-- Every window published by the attach loop carries a handle that the
given Handle Cache holds for its id. -/
theorem attachWindows_resolved (infos : List WindowInfo) (ax : List (Nat × Nat)) :
    ∀ (m : List (Int × App)),
      (∀ pid app, lookupA m pid = some app →
        ∀ w ∈ app.windows, lookupA ax w.id = some w.ax_element) →
      ∀ pid app, lookupA (attachWindows infos ax m) pid = some app →
        ∀ w ∈ app.windows, lookupA ax w.id = some w.ax_element := by
  induction infos with
  | nil => intro m hm; exact hm
  | cons info rest ih =>
    intro m hm pid app hl w hw
    rw [attachWindows, List.foldl_cons] at hl
    cases hax : lookupA ax info.id with
    | none =>
      simp only [hax] at hl
      exact ih m hm pid app hl w hw
    | some axe =>
      simp only [hax] at hl
      refine ih _ ?_ pid app hl w hw
      intro pid2 app2 hl2 w2 hw2
      rw [lookupA_modifyA] at hl2
      by_cases hp : pid2 = info.pid
      · rw [if_pos hp] at hl2
        cases hm2 : lookupA m pid2 with
        | none => rw [hm2] at hl2; simp at hl2
        | some app0 =>
          rw [hm2] at hl2
          simp at hl2
          subst hl2
          simp only [List.mem_append, List.mem_singleton] at hw2
          rcases hw2 with hw2 | hw2
          · exact hm pid2 app0 hm2 w2 hw2
          · subst hw2
            exact hax
      · rw [if_neg hp] at hl2
        exact hm pid2 app2 hl2 w2 hw2

end winmgr

namespace winmgr

/-- Every window id stored in the uncached-by-pid grouping comes from the
window-info list it was built from. -/
theorem groupUncached_vals (infos : List WindowInfo) (ax : List (Nat × Nat))
    (S : List Nat) (hS : ∀ info ∈ infos, info.id ∈ S) :
    ∀ g ∈ groupUncached infos ax, ∀ w ∈ g.2, w ∈ S := by
  suffices h : ∀ (acc : List (Int × List Nat)),
      (∀ g ∈ acc, ∀ w ∈ g.2, w ∈ S) →
      (∀ info ∈ infos, info.id ∈ S) →
      ∀ g ∈ infos.foldl
        (fun acc info =>
          if lookupA ax info.id = none then
            match lookupA acc info.pid with
            | some wids =>
              if info.id ∈ wids then acc
              else modifyA acc info.pid (fun l => l ++ [info.id])
            | none => acc ++ [(info.pid, [info.id])]
          else acc) acc, ∀ w ∈ g.2, w ∈ S by
    exact h [] (by simp) hS
  clear hS
  induction infos with
  | nil => intro acc hacc _ g hg; exact hacc g hg
  | cons info rest ih =>
    intro acc hacc hS g hg
    simp only [List.foldl_cons] at hg
    have hSrest : ∀ i ∈ rest, i.id ∈ S := fun i hi => hS i (List.mem_cons_of_mem _ hi)
    have hSinfo : info.id ∈ S := hS info (List.mem_cons_self _ _)
    by_cases hcached : lookupA ax info.id = none
    · simp only [hcached, if_pos rfl] at hg
      cases hl : lookupA acc info.pid with
      | some wids =>
        by_cases hmem : info.id ∈ wids
        · simp only [hl, hmem, if_pos rfl] at hg
          exact ih acc hacc hSrest g hg
        · simp only [hl, hmem, if_neg] at hg
          refine ih _ ?_ hSrest g (by simpa using hg)
          intro g2 hg2 w hw
          simp only [modifyA, List.mem_map] at hg2
          obtain ⟨p, hp, hpg⟩ := hg2
          by_cases hpk : p.1 = info.pid
          · rw [if_pos hpk] at hpg
            subst hpg
            simp only [List.mem_append, List.mem_singleton] at hw
            rcases hw with hw | hw
            · exact hacc p hp w hw
            · subst hw; exact hSinfo
          · rw [if_neg hpk] at hpg
            subst hpg
            exact hacc p hp w hw
      | none =>
        simp only [hl] at hg
        refine ih _ ?_ hSrest g (by simpa using hg)
        intro g2 hg2 w hw
        simp only [List.mem_append, List.mem_singleton] at hg2
        rcases hg2 with hg2 | hg2
        · exact hacc g2 hg2 w hw
        · subst hg2
          simp only [List.mem_singleton] at hw
          subst hw
          exact hSinfo
    · simp only [hcached, if_neg] at hg
      exact ih acc hacc hSrest g (by simpa [hcached] using hg)

/-- Folding the per-process resolver results into a Handle Cache whose
keys all lie in `S` keeps every key in `S`, provided every requested id
lies in `S`. -/
theorem axFold_keys_subset (probe : Int → Nat → Option (Nat × String × Nat))
    (S : List Nat) :
    ∀ (groups : List (Int × List Nat)) (ax : List (Nat × Nat)),
      (∀ x ∈ keysA ax, x ∈ S) →
      (∀ g ∈ groups, ∀ w ∈ g.2, w ∈ S) →
      ∀ x ∈ keysA (groups.foldl
        (fun ax g => extendA ax (macos.resolve_ax_for_pid (probe g.1) g.2)) ax),
        x ∈ S := by
  intro groups
  induction groups with
  | nil => intro ax hax _ x hx; exact hax x hx
  | cons g rest ih =>
    intro ax hax hgr x hx
    simp only [List.foldl_cons] at hx
    refine ih _ ?_ (fun g2 hg2 => hgr g2 (List.mem_cons_of_mem _ hg2)) x hx
    intro y hy
    rcases keysA_extendA_subset _ _ y hy with h | h
    · exact hax y h
    · exact hgr g (List.mem_cons_self _ _) _
        (macos.resolve_keysA_subset (probe g.1) g.2 y h)

end winmgr

/-! ## Claim C3 -/

/-- C3: if any Catalog/Enumerator query fails during `Manager::refresh`,
the call returns an error and the `Manager`'s published inventory, Handle
Cache and Icon Cache are exactly as they were before the call. -/
theorem C3_refresh_atomic_on_error (env : winmgr.RefreshEnv) (st : winmgr.MState)
    (e : String) (h : (winmgr.refresh env st).1 = .error e) :
    (winmgr.refresh env st).2 = st := by
  unfold winmgr.refresh at h ⊢
  cases hv : env.visibleRes with
  | error e2 => simp [hv]
  | ok visible =>
    cases hw : env.windowInfoRes visible with
    | error e2 => simp [hv, hw]
    | ok infos => simp [hv, hw] at h

/-- Failing refresh environment: the visible-window-ids query fails. -/
def C3env : winmgr.RefreshEnv :=
  { visibleRes := .error "boom"
    windowInfoRes := fun _ => .ok []
    runningApps := []
    probe := fun _ _ => none }

/-- A pre-populated manager state. -/
def C3st : winmgr.MState :=
  ⟨[(1, ⟨1, "Old", []⟩)], [(9, 3)], [(1, ⟨[0, 0, 0, 255]⟩)]⟩

/-- C3 witness: on a concrete failing environment, refresh errors and the
previous populated state survives untouched. -/
theorem C3_refresh_atomic_on_error_witness :
    (winmgr.refresh C3env C3st).1 =
        .error "Failed to get visible window IDs: boom" ∧
      (winmgr.refresh C3env C3st).2 = C3st :=
  ⟨rfl, C3_refresh_atomic_on_error C3env C3st _ rfl⟩

/-! ## Claim C4 -/

/-- C4: after every successful refresh, every Handle Cache key is a live
window id observed during that refresh, and every Icon Cache key is a
live process id observed during that refresh. -/
theorem C4_cache_eviction_invariant (env : winmgr.RefreshEnv) (st : winmgr.MState)
    (visible : List Nat) (infos : List winmgr.WindowInfo)
    (hv : env.visibleRes = .ok visible)
    (hw : env.windowInfoRes visible = .ok infos) :
    (∀ wid ∈ keysA (winmgr.refresh env st).2.ax_cache, wid ∈ infos.map (·.id)) ∧
      (∀ pid ∈ keysA (winmgr.refresh env st).2.icon_cache, pid ∈ infos.map (·.pid)) := by
  simp only [winmgr.refresh, hv, hw]
  constructor
  · intro wid hwid
    refine winmgr.axFold_keys_subset env.probe (infos.map (·.id)) _ _
      ?_ ?_ wid hwid
    · exact keysA_filter_mem st.ax_cache (infos.map (·.id))
    · exact winmgr.groupUncached_vals infos _ (infos.map (·.id))
        (fun info hi => List.mem_map_of_mem _ hi)
  · intro pid hpid
    exact keysA_filter_mem _ (infos.map (·.pid)) pid hpid

/-- Refresh environment with one live window and a resolvable handle. -/
def C4env : winmgr.RefreshEnv :=
  { visibleRes := .ok [5]
    windowInfoRes := fun _ => .ok [⟨1, 5, "w"⟩]
    runningApps := [⟨1, true, false, some "A", some ⟨[1, 2, 3, 255]⟩⟩]
    probe := fun _ i => if i = 3 then some (5, "AXStandardWindow", 77) else none }

/-- A stale state holding cache entries for ids that are no longer live. -/
def C4st : winmgr.MState :=
  ⟨[], [(9, 3)], [(2, ⟨[7]⟩)]⟩

/-- C4 witness: on a concrete refresh the eviction invariant holds of the
resulting caches (the stale keys 9 and 2 are gone, the live ones remain). -/
theorem C4_cache_eviction_invariant_witness :
    (∀ wid ∈ keysA (winmgr.refresh C4env C4st).2.ax_cache, wid ∈ [5]) ∧
      (∀ pid ∈ keysA (winmgr.refresh C4env C4st).2.icon_cache, pid ∈ [(1 : Int)]) := by
  have h := C4_cache_eviction_invariant C4env C4st [5] [⟨1, 5, "w"⟩] rfl rfl
  simpa using h

/-! ## Claim C1 -/

/-- C1 (amended): after a successful refresh, every window published in
the inventory carries a control handle recorded in the Handle Cache for
its id; windows whose handle was not resolved are omitted from the
inventory rather than published as unfocusable. -/
theorem C1_published_windows_resolved (env : winmgr.RefreshEnv) (st : winmgr.MState)
    (hok : (winmgr.refresh env st).1 = .ok ())
    (pid : Int) (app : winmgr.App)
    (happ : lookupA (winmgr.refresh env st).2.app_map pid = some app) :
    ∀ w ∈ app.windows,
      lookupA (winmgr.refresh env st).2.ax_cache w.id = some w.ax_element := by
  cases hv : env.visibleRes with
  | error e => simp only [winmgr.refresh, hv] at hok; exact absurd hok (by simp)
  | ok visible =>
    cases hw : env.windowInfoRes visible with
    | error e =>
      simp only [winmgr.refresh, hv, hw] at hok
      exact absurd hok (by simp)
    | ok infos =>
      simp only [winmgr.refresh, hv, hw] at happ ⊢
      refine winmgr.attachWindows_resolved infos _ _ ?_ pid app happ
      intro pid2 app2 hl2 w2 hw2
      have := winmgr.buildApps_windows_nil env.runningApps
        (infos.map (·.pid)) st.icon_cache pid2 app2 hl2
      rw [this] at hw2
      simp at hw2

/-- Refresh environment observing window id 5 whose handle resolution
fails (every accessibility probe comes back empty). -/
def C1env : winmgr.RefreshEnv :=
  { visibleRes := .ok [5]
    windowInfoRes := fun _ => .ok [⟨1, 5, "w"⟩]
    runningApps := [⟨1, true, false, some "A", none⟩]
    probe := fun _ _ => none }

/-- The empty manager state. -/
def C1st : winmgr.MState := ⟨[], [], []⟩

/-- C1 counterexample: the refresh succeeds and window id 5 is observed in
the live window-info list, yet the published inventory contains no window
at all — the unresolved window is dropped, not published as
"not focusable yet". -/
theorem C1_counterexample :
    (winmgr.refresh C1env C1st).1 = .ok () ∧
      C1env.windowInfoRes [5] = .ok [⟨1, 5, "w"⟩] ∧
      (winmgr.refresh C1env C1st).2.app_map = [(1, ⟨1, "A", []⟩)] ∧
      ∀ a ∈ ((winmgr.refresh C1env C1st).2.app_map).map (·.2), a.windows = [] :=
  ⟨rfl, rfl, by decide, by decide⟩

/-- Refresh environment identical to `C1env` except that probe index 3
reports window 5 with an accepted subrole, so the handle resolves. -/
def C1envB : winmgr.RefreshEnv :=
  { C1env with
    probe := fun _ i => if i = 3 then some (5, "AXStandardWindow", 77) else none }

/-- C1 witness: applying the amended theorem at a concrete refresh whose
window did resolve. -/
theorem C1_published_windows_resolved_witness :
    lookupA (winmgr.refresh C1envB C1st).2.ax_cache 5 = some 77 :=
  C1_published_windows_resolved C1envB C1st rfl 1 ⟨1, "A", [⟨"w", 5, 77⟩]⟩
    (by decide) ⟨"w", 5, 77⟩ (by decide)

namespace macos

/-- The resolver loop probes at most `fuel` candidate indices. -/
theorem resolveAux_count_le (probe : Nat → Option (Nat × String × Nat)) :
    ∀ fuel i remaining acc, (resolveAux probe fuel i remaining acc).2 ≤ fuel := by
  intro fuel
  induction fuel with
  | zero => intro i remaining acc; simp [resolveAux]
  | succ fuel ih =>
    intro i remaining acc
    rw [resolveAux]
    by_cases hrem : remaining.isEmpty
    · simp [hrem]
    · simp only [hrem, if_false]
      exact Nat.succ_le_succ (ih _ _ _)

/-- Every binding the resolver loop returns either was already accumulated
or stems from a probe at some index in the scanned range that reported
that window id with an accepted subrole. -/
theorem resolveAux_mem_of (probe : Nat → Option (Nat × String × Nat)) :
    ∀ fuel i remaining acc w hdl,
      (w, hdl) ∈ (resolveAux probe fuel i remaining acc).1 →
      (w, hdl) ∈ acc ∨
        ∃ j, i ≤ j ∧ j < i + fuel ∧
          ∃ sub, probe j = some (w, sub, hdl) ∧ sub ∈ acceptedSubroles := by
  intro fuel
  induction fuel with
  | zero => intro i remaining acc w hdl h; exact Or.inl h
  | succ fuel ih =>
    intro i remaining acc w hdl h
    rw [resolveAux] at h
    by_cases hrem : remaining.isEmpty
    · simp only [hrem, if_true] at h
      exact Or.inl h
    · simp only [hrem, if_false] at h
      rcases ih (i + 1) _ _ w hdl h with hacc | ⟨j, hj1, hj2, sub, hp, hs⟩
      · cases hp : probe i with
        | none => simp [resolveStep, hp] at hacc; exact Or.inl hacc
        | some t =>
          obtain ⟨wid, sub, hdl2⟩ := t
          by_cases hcond : wid ∈ remaining ∧ sub ∈ acceptedSubroles
          · simp only [resolveStep, hp, if_pos hcond, List.mem_append,
              List.mem_singleton] at hacc
            rcases hacc with hacc | hacc
            · exact Or.inl hacc
            · have hw : wid = w ∧ hdl2 = hdl := by
                constructor <;> · injection hacc with h1 h2; simp_all
              refine Or.inr ⟨i, le_refl i, by omega, sub, ?_, hcond.2⟩
              rw [hp, hw.1, hw.2]
          · simp [resolveStep, hp, hcond] at hacc
            exact Or.inl hacc
      · exact Or.inr ⟨j, by omega, by omega, sub, hp, hs⟩

end macos

/-! ## Claim C5 -/

/-- C5: for every process probe oracle and every requested window-id set,
the Handle Resolver probes at most 100 candidate indices, stops
immediately (zero further probes) once no requested id remains, and the
mapping it returns contains only keys from the requested set. -/
theorem C5_resolver_bounded (probe : Nat → Option (Nat × String × Nat))
    (wids : List Nat) :
    macos.resolveProbeCount probe wids ≤ 100 ∧
      (∀ w ∈ keysA (macos.resolve_ax_for_pid probe wids), w ∈ wids) ∧
      (∀ fuel i acc, macos.resolveAux probe fuel i [] acc = (acc, 0)) := by
  refine ⟨macos.resolveAux_count_le probe 100 0 wids [],
    macos.resolve_keysA_subset probe wids, ?_⟩
  intro fuel i acc
  cases fuel with
  | zero => rfl
  | succ fuel => simp [macos.resolveAux]

/-- A probe oracle that reports window 5 (with an accepted subrole) at
index 3 and nothing elsewhere. -/
def C5probe : Nat → Option (Nat × String × Nat) :=
  fun i => if i = 3 then some (5, "AXStandardWindow", 77) else none

/-- C5 witness: the bound, the key-subset property and the early stop
applied at a concrete probe oracle and request set. -/
theorem C5_resolver_bounded_witness :
    macos.resolveProbeCount C5probe [5] ≤ 100 ∧ 5 ∈ [5] ∧
      macos.resolveAux C5probe 7 9 [] [(5, 77)] = ([(5, 77)], 0) :=
  ⟨(C5_resolver_bounded C5probe [5]).1,
   (C5_resolver_bounded C5probe [5]).2.1 5 (by decide),
   (C5_resolver_bounded C5probe [5]).2.2 7 9 [(5, 77)]⟩

/-! ## Claim C6 -/

/-- C6: a probed control object is recorded for a target id exactly when
the object's reported window id is a still-unresolved target and its
subrole is one of the accepted standard-window values; an object matching
the id but failing the subrole test is not recorded.  Consequently every
binding the Resolver returns stems from a probe whose reported subrole was
accepted. -/
theorem C6_subrole_filter :
    (∀ (remaining : List Nat) (acc : List (Nat × Nat)) (wid : Nat) (sub : String)
        (hdl : Nat),
      (wid ∈ remaining ∧ sub ∈ macos.acceptedSubroles →
        macos.resolveStep remaining acc (some (wid, sub, hdl)) =
          (remaining.erase wid, acc ++ [(wid, hdl)])) ∧
      (¬ (wid ∈ remaining ∧ sub ∈ macos.acceptedSubroles) →
        macos.resolveStep remaining acc (some (wid, sub, hdl)) = (remaining, acc))) ∧
    ∀ (probe : Nat → Option (Nat × String × Nat)) (wids : List Nat) (w hdl : Nat),
      (w, hdl) ∈ macos.resolve_ax_for_pid probe wids →
      ∃ j < 100, ∃ sub, probe j = some (w, sub, hdl) ∧
        sub ∈ macos.acceptedSubroles := by
  constructor
  · intro remaining acc wid sub hdl
    constructor
    · intro hcond
      simp [macos.resolveStep, hcond]
    · intro hcond
      simp [macos.resolveStep, hcond]
  · intro probe wids w hdl h
    rcases macos.resolveAux_mem_of probe 100 0 wids [] w hdl h with hacc | ⟨j, _, hj, hrest⟩
    · simp at hacc
    · exact ⟨j, by omega, hrest⟩

/-- A probe oracle reporting window 5 with a rejected subrole at index 2
and with an accepted one at index 4. -/
def C6probe : Nat → Option (Nat × String × Nat) :=
  fun i =>
    if i = 2 then some (5, "AXUnknown", 33)
    else if i = 4 then some (5, "AXDialog", 44)
    else none

/-- C6 witness: the recording and non-recording cases of the step, and the
accepted-subrole provenance of a concrete resolved binding. -/
theorem C6_subrole_filter_witness :
    macos.resolveStep [5] [] (some (5, "AXDialog", 44)) = ([5].erase 5, [] ++ [(5, 44)]) ∧
      macos.resolveStep [5] [] (some (5, "AXUnknown", 33)) = ([5], []) ∧
      ∃ j < 100, ∃ sub, C6probe j = some (5, sub, 44) ∧ sub ∈ macos.acceptedSubroles :=
  ⟨(C6_subrole_filter.1 [5] [] 5 "AXDialog" 44).1 (by decide),
   (C6_subrole_filter.1 [5] [] 5 "AXUnknown" 33).2 (by decide),
   C6_subrole_filter.2 C6probe [5] 5 44 (by decide)⟩

namespace macos

/-- The trace of a focus switch that reaches the space-comparison step:
PSN lookup, set-front-process, the posted key-window records, then either
the activation request or the accessibility probe path, then the cursor
warp. -/
theorem focus_trace_success (env : FocusEnv) (pid : Int) (w : Window)
    (hpsn : env.psnRes = 0) (hfront : env.frontRes = .success)
    (hkey : (make_key_window env.postRes (idU32 w.id)).1 = CGError.success) :
    (focus env pid w).2 =
      [FAct.getProcessForPID pid, FAct.setFrontProcess (idU32 w.id) 0x200] ++
        (make_key_window env.postRes (idU32 w.id)).2.map FAct.postEvent ++
        (if w.space.id = env.activeSpace then [FAct.activateApp]
         else focus_ax env.probeAx (idU32 w.id) 100 0) ++
        [FAct.warpCursor (w.bounds.x + w.bounds.w / 2) (w.bounds.y + w.bounds.h / 2)] := by
  simp [focus, hpsn, hfront, hkey]

/-- The accessibility probe path never issues an activation request. -/
theorem focus_ax_no_activate (probeAx : Nat → Option Nat) (selfId : Nat) :
    ∀ fuel i, FAct.activateApp ∉ focus_ax probeAx selfId fuel i := by
  intro fuel
  induction fuel with
  | zero => intro i h; simp [focus_ax] at h
  | succ fuel ih =>
    intro i h
    rw [focus_ax] at h
    rcases List.mem_cons.mp h with h | h
    · exact absurd h (by simp)
    · cases hp : probeAx i with
      | none => simp only [hp] at h; exact ih (i + 1) h
      | some wid =>
        simp only [hp] at h
        by_cases hw : wid = selfId
        · rw [if_pos hw] at h; simp at h
        · rw [if_neg hw] at h; exact ih (i + 1) h

/-- The accessibility probe path always begins by probing its first
candidate index when it runs at all. -/
theorem focus_ax_probes_first (probeAx : Nat → Option Nat) (selfId : Nat)
    (fuel i : Nat) (hf : 0 < fuel) :
    FAct.axProbe i ∈ focus_ax probeAx selfId fuel i := by
  cases fuel with
  | zero => omega
  | succ fuel => rw [focus_ax]; exact List.mem_cons_self _ _

/-- If some probe in the scanned range reports the target window id, the
probe path performs the raise action. -/
theorem focus_ax_raises (probeAx : Nat → Option Nat) (selfId : Nat) :
    ∀ fuel i, (∃ j, i ≤ j ∧ j < i + fuel ∧ probeAx j = some selfId) →
      ∃ k, FAct.raiseAX k ∈ focus_ax probeAx selfId fuel i := by
  intro fuel
  induction fuel with
  | zero => intro i ⟨j, h1, h2, _⟩; omega
  | succ fuel ih =>
    intro i ⟨j, h1, h2, hj⟩
    rw [focus_ax]
    cases hp : probeAx i with
    | none =>
      have hji : j ≠ i := fun h => by rw [h, hp] at hj; cases hj
      obtain ⟨k, hk⟩ := ih (i + 1) ⟨j, by omega, by omega, hj⟩
      exact ⟨k, List.mem_cons_of_mem _ hk⟩
    | some wid =>
      by_cases hw : wid = selfId
      · exact ⟨i, by simp [hw]⟩
      · have hji : j ≠ i := by
          intro h
          rw [h, hp] at hj
          injection hj with h2
          exact hw h2
        obtain ⟨k, hk⟩ := ih (i + 1) ⟨j, by omega, by omega, hj⟩
        refine ⟨k, ?_⟩
        simp only [hw, if_neg]
        exact List.mem_cons_of_mem _ hk

end macos

namespace winmgr

/-- A successful run of the caching variant's `Window::focus` has a trace
consisting of the PSN lookup, set-front-process, the posted key-window
records, the unconditional raise on the cached handle, and the cursor
warp. -/
theorem focus_ok_shape (env : FocusEnv) (pid : Int) (w : Window)
    (hok : (focus env pid w).1 = .ok ()) :
    ∃ b, env.boundsRes = .ok b ∧
      (focus env pid w).2 =
        [macos.FAct.getProcessForPID pid, macos.FAct.setFrontProcess w.id 0x200] ++
          (macos.make_key_window env.postRes w.id).2.map macos.FAct.postEvent ++
          [macos.FAct.raiseAX w.ax_element] ++
          [macos.FAct.warpCursor (b.x + b.w / 2) (b.y + b.h / 2)] := by
  by_cases hpsn : env.psnRes ≠ 0
  · simp [focus, hpsn] at hok
  · push_neg at hpsn
    cases hfront : env.frontRes with
    | failure c => simp [focus, hpsn, hfront] at hok
    | success =>
      by_cases hkey : (macos.make_key_window env.postRes w.id).1 = CGError.success
      · cases hb : env.boundsRes with
        | error u => simp [focus, hpsn, hfront, hkey, hb] at hok
        | ok b =>
          refine ⟨b, rfl, ?_⟩
          simp [focus, hpsn, hfront, hkey, hb]
      · simp [focus, hpsn, hfront, hkey] at hok

end winmgr

/-! ## Claim C2 -/

/-- C2 (amended): in the simpler variant (`macos.rs` `Window::focus`),
once the protocol reaches step 4 it branches on the space comparison
exactly as claimed: equal space ids issue the activation request and
never the raise action, different space ids enter the accessibility probe
path (raising when some probe reports the target) and never issue the
activation request.  In the caching variant (`windows.rs`
`Window::focus`), however, every successful focus performs the raise
action on the cached handle unconditionally and never issues the
activation request, regardless of any space comparison. -/
theorem C2_space_branch :
    (∀ (env : macos.FocusEnv) (pid : Int) (w : macos.Window),
      env.psnRes = 0 → env.frontRes = .success →
      (macos.make_key_window env.postRes (idU32 w.id)).1 = CGError.success →
      (w.space.id = env.activeSpace →
        macos.FAct.activateApp ∈ (macos.focus env pid w).2 ∧
          (∀ h, macos.FAct.raiseAX h ∉ (macos.focus env pid w).2)) ∧
      (w.space.id ≠ env.activeSpace →
        macos.FAct.activateApp ∉ (macos.focus env pid w).2 ∧
          macos.FAct.axProbe 0 ∈ (macos.focus env pid w).2 ∧
          ((∃ j, j < 100 ∧ env.probeAx j = some (idU32 w.id)) →
            ∃ k, macos.FAct.raiseAX k ∈ (macos.focus env pid w).2))) ∧
    (∀ (env : winmgr.FocusEnv) (pid : Int) (w : winmgr.Window),
      (winmgr.focus env pid w).1 = .ok () →
      macos.FAct.raiseAX w.ax_element ∈ (winmgr.focus env pid w).2 ∧
        macos.FAct.activateApp ∉ (winmgr.focus env pid w).2) := by
  constructor
  · intro env pid w hpsn hfront hkey
    have htr := macos.focus_trace_success env pid w hpsn hfront hkey
    constructor
    · intro hsp
      rw [htr, if_pos hsp]
      refine ⟨by simp, ?_⟩
      intro h
      simp
    · intro hsp
      rw [htr, if_neg hsp]
      have hax := macos.focus_ax_no_activate env.probeAx (idU32 w.id) 100 0
      refine ⟨by simp [hax], ?_, ?_⟩
      · have hpf := macos.focus_ax_probes_first env.probeAx (idU32 w.id) 100 0 (by omega)
        simp only [List.mem_append]
        exact Or.inl (Or.inr hpf)
      · rintro ⟨j, hj, hpj⟩
        obtain ⟨k, hk⟩ := macos.focus_ax_raises env.probeAx (idU32 w.id) 100 0
          ⟨j, by omega, by omega, hpj⟩
        refine ⟨k, ?_⟩
        simp only [List.mem_append]
        exact Or.inl (Or.inr hk)
  · intro env pid w hok
    obtain ⟨b, _, htr⟩ := winmgr.focus_ok_shape env pid w hok
    rw [htr]
    exact ⟨by simp, by simp⟩

/-- Focus environment for the caching variant in which every OS call
succeeds. -/
def C2env : winmgr.FocusEnv :=
  ⟨0, .success, fun _ => .success, .ok ⟨0, 0, 2, 2⟩⟩

/-- A published window of the caching variant with cached handle 42. -/
def C2w : winmgr.Window := ⟨"t", 7, 42⟩

set_option maxRecDepth 8000 in
/-- C2 counterexample: in the caching variant a fully successful focus
switch — in particular one whose target window lies on the currently
active space — performs the accessibility raise action and never issues
the plain activate-application request; the space ids are not even
consulted, contradicting the claimed equal-space branch. -/
theorem C2_counterexample :
    (winmgr.focus C2env 1 C2w).1 = .ok () ∧
      macos.FAct.raiseAX 42 ∈ (winmgr.focus C2env 1 C2w).2 ∧
      macos.FAct.activateApp ∉ (winmgr.focus C2env 1 C2w).2 :=
  ⟨rfl, by decide, by decide⟩

/-- Focus environment for the simpler variant: every call succeeds, the
active space id is 10 and probe index 2 reports the target window. -/
def C2menv : macos.FocusEnv :=
  ⟨0, .success, fun _ => .success, 10, fun i => if i = 2 then some 7 else none⟩

/-- A window of the simpler variant lying on space 10. -/
def C2mw : macos.Window := ⟨"t", 7, ⟨0, 0, 2, 2⟩, ⟨1, "uuid", some 1, 10⟩⟩

/-- A window of the simpler variant lying on space 11. -/
def C2mw2 : macos.Window := ⟨"t", 7, ⟨0, 0, 2, 2⟩, ⟨1, "uuid", some 1, 11⟩⟩

set_option maxRecDepth 8000 in
/-- C2 witness: the amended branch behavior applied at concrete focus
switches — equal space activates, different space probes and raises, and
the caching variant raises without activating. -/
theorem C2_space_branch_witness :
    macos.FAct.activateApp ∈ (macos.focus C2menv 1 C2mw).2 ∧
      macos.FAct.activateApp ∉ (macos.focus C2menv 1 C2mw2).2 ∧
      (∃ k, macos.FAct.raiseAX k ∈ (macos.focus C2menv 1 C2mw2).2) ∧
      macos.FAct.raiseAX 42 ∈ (winmgr.focus C2env 1 C2w).2 :=
  ⟨((C2_space_branch.1 C2menv 1 C2mw rfl rfl rfl).1 (by decide)).1,
   ((C2_space_branch.1 C2menv 1 C2mw2 rfl rfl rfl).2 (by decide)).1,
   ((C2_space_branch.1 C2menv 1 C2mw2 rfl rfl rfl).2 (by decide)).2.2
     ⟨2, by omega, by decide⟩,
   (C2_space_branch.2 C2env 1 C2w rfl).1⟩

namespace macos

/-- Apps produced by `get_apps` all start with empty window lists. -/
theorem get_apps_entries_windows_nil (f16 : Nat → Nat → Nat)
    (apps : List RunningApp) :
    ∀ q ∈ get_apps f16 apps, q.2.windows = [] := by
  suffices h : ∀ (m : List (Int × App)), (∀ q ∈ m, q.2.windows = []) →
      ∀ q ∈ apps.foldl
        (fun m a =>
          if a.policyRegular = false ∨ a.terminated = true then m
          else insertA m a.pid ⟨a.pid, a.name.getD "", [], a.icon.bind (ns_image_to_color f16)⟩)
        m, q.2.windows = [] by
    exact h [] (by simp)
  induction apps with
  | nil => intro m hm q hq; exact hm q hq
  | cons a rest ih =>
    intro m hm q hq
    simp only [List.foldl_cons] at hq
    by_cases hpol : a.policyRegular = false ∨ a.terminated = true
    · exact ih m hm q (by simpa [hpol] using hq)
    · refine ih _ ?_ q (by simpa [hpol] using hq)
      intro q2 hq2
      simp only [insertA, List.mem_append, List.mem_singleton] at hq2
      rcases hq2 with hq2 | hq2
      · exact hm q2 (List.mem_of_mem_filter hq2)
      · rw [hq2]

/-- The keys of the `get_apps` map are duplicate-free. -/
theorem get_apps_keys_nodup (f16 : Nat → Nat → Nat) (apps : List RunningApp) :
    (keysA (get_apps f16 apps)).Nodup := by
  suffices h : ∀ (m : List (Int × App)), (keysA m).Nodup →
      (keysA (apps.foldl
        (fun m a =>
          if a.policyRegular = false ∨ a.terminated = true then m
          else insertA m a.pid ⟨a.pid, a.name.getD "", [], a.icon.bind (ns_image_to_color f16)⟩)
        m)).Nodup by
    exact h [] (by simp [keysA])
  induction apps with
  | nil => intro m hm; exact hm
  | cons a rest ih =>
    intro m hm
    simp only [List.foldl_cons]
    by_cases hpol : a.policyRegular = false ∨ a.terminated = true
    · simpa [hpol] using ih m hm
    · simpa [hpol] using ih _ (keysA_insertA_nodup m a.pid _ hm)

/-- If every app of an inventory has no windows, the inventory publishes
no window ids. -/
theorem allWindowIds_nil (m : List (Int × App))
    (hm : ∀ q ∈ m, q.2.windows = []) : allWindowIds m = [] := by
  induction m with
  | nil => rfl
  | cons q rest ih =>
    have hq := hm q (List.mem_cons_self _ _)
    simp only [allWindowIds, List.flatMap_cons, hq, List.map_nil, List.nil_append]
    exact ih (fun q2 hq2 => hm q2 (List.mem_cons_of_mem _ hq2))

/-- Appending one window to the app of key `p` permutes the published
window ids into the new id consed onto the old ids. -/
theorem allWindowIds_modifyA_perm (w : Window) (p : Int) :
    ∀ (m : List (Int × App)) (a : App), (keysA m).Nodup → lookupA m p = some a →
      (allWindowIds (modifyA m p
        (fun app => { app with windows := app.windows ++ [w] }))).Perm
        (w.id :: allWindowIds m) := by
  intro m
  induction m with
  | nil => intro a _ h; simp [lookupA] at h
  | cons q rest ih =>
    intro a hnd hl
    have hkeys : keysA (q :: rest) = q.1 :: keysA rest := rfl
    rw [hkeys] at hnd
    obtain ⟨hhead, hndtl⟩ := List.nodup_cons.mp hnd
    rw [lookupA_cons] at hl
    by_cases hq : q.1 = p
    · have hnot : p ∉ keysA rest := by rw [hq] at hhead; exact hhead
      have hmod : modifyA (q :: rest) p
          (fun app => { app with windows := app.windows ++ [w] }) =
          (q.1, { q.2 with windows := q.2.windows ++ [w] }) ::
            modifyA rest p (fun app => { app with windows := app.windows ++ [w] }) := by
        simp [modifyA, hq]
      rw [hmod, modifyA_of_not_mem _ hnot]
      simp only [allWindowIds, List.flatMap_cons, List.map_append, List.map_cons,
        List.map_nil, List.append_assoc, List.singleton_append, List.nil_append]
      exact List.perm_middle
    · rw [if_neg hq] at hl
      have hperm := ih a hndtl hl
      have hmod : modifyA (q :: rest) p
          (fun app => { app with windows := app.windows ++ [w] }) =
          q :: modifyA rest p (fun app => { app with windows := app.windows ++ [w] }) := by
        simp [modifyA, hq]
      rw [hmod]
      simp only [allWindowIds, List.flatMap_cons] at hperm ⊢
      refine List.Perm.trans (List.Perm.append_left _ hperm) ?_
      exact List.perm_middle

/-- Provenance through the enumerator's window loop: every published
window either was already in the inventory handed to the loop, or it came
from an entry of the processed list with layer 0 whose id was in the
visible map. -/
theorem processWindows_provenance :
    ∀ (entries : List WinDictEntry) (visible : List (Int × Space))
      (m m' : List (Int × App)),
      processWindows visible m entries = .ok m' →
      ∀ pid app w, lookupA m' pid = some app → w ∈ app.windows →
        (∃ app0, lookupA m pid = some app0 ∧ w ∈ app0.windows) ∨
        (w.id ∈ keysA visible ∧ ∃ e ∈ entries, e.layer = 0 ∧ e.number = w.id) := by
  intro entries
  induction entries with
  | nil =>
    intro visible m m' hok pid app w hl hw
    simp only [processWindows] at hok
    cases hok
    exact Or.inl ⟨app, hl, hw⟩
  | cons e rest ih =>
    intro visible m m' hok pid app w hl hw
    rw [processWindows] at hok
    cases hm : lookupA m e.ownerPID with
    | none =>
      simp only [hm] at hok
      rcases ih visible m m' hok pid app w hl hw with h | ⟨h1, e2, h2, h3⟩
      · exact Or.inl h
      · exact Or.inr ⟨h1, e2, List.mem_cons_of_mem _ h2, h3⟩
    | some app1 =>
      cases hv : lookupA visible e.number with
      | none =>
        simp only [hm, hv] at hok
        rcases ih visible m m' hok pid app w hl hw with h | ⟨h1, e2, h2, h3⟩
        · exact Or.inl h
        · exact Or.inr ⟨h1, e2, List.mem_cons_of_mem _ h2, h3⟩
      | some sp =>
        simp only [hm, hv] at hok
        by_cases hlay : e.layer ≠ 0
        · rw [if_pos hlay] at hok
          rcases ih visible m m' hok pid app w hl hw with h | ⟨h1, e2, h2, h3⟩
          · exact Or.inl h
          · exact Or.inr ⟨h1, e2, List.mem_cons_of_mem _ h2, h3⟩
        · rw [if_neg hlay] at hok
          push_neg at hlay
          cases hb : e.bounds with
          | none => rw [hb] at hok; cases hok
          | some b =>
            rw [hb] at hok
            rcases ih _ _ m' hok pid app w hl hw with ⟨app0, hl0, hw0⟩ | ⟨h1, e2, h2, h3⟩
            · rw [lookupA_modifyA] at hl0
              by_cases hp : pid = e.ownerPID
              · rw [if_pos hp] at hl0
                cases hm0 : lookupA m pid with
                | none => rw [hm0] at hl0; cases hl0
                | some appOld =>
                  rw [hm0] at hl0
                  simp only [Option.map] at hl0
                  injection hl0 with hl0
                  subst hl0
                  simp only [List.mem_append, List.mem_singleton] at hw0
                  rcases hw0 with hw0 | hw0
                  · exact Or.inl ⟨appOld, rfl, hw0⟩
                  · subst hw0
                    refine Or.inr ⟨mem_keysA_of_lookupA hv, e,
                      List.mem_cons_self _ _, hlay, rfl⟩
              · rw [if_neg hp] at hl0
                exact Or.inl ⟨app0, hl0, hw0⟩
            · exact Or.inr ⟨keysA_eraseA_subset visible e.number w.id h1, e2,
                List.mem_cons_of_mem _ h2, h3⟩

/-- Through the enumerator's window loop, duplicate-free published window
ids stay duplicate-free: attaching a window removes its id from the
visible map, so no published id can ever be attached a second time. -/
theorem processWindows_nodup :
    ∀ (entries : List WinDictEntry) (visible : List (Int × Space))
      (m : List (Int × App)),
      (keysA m).Nodup →
      (allWindowIds m).Nodup →
      (∀ wid ∈ allWindowIds m, lookupA visible wid = none) →
      ∀ m', processWindows visible m entries = .ok m' →
        (allWindowIds m').Nodup := by
  intro entries
  induction entries with
  | nil =>
    intro visible m _ h2 _ m' hok
    simp only [processWindows] at hok
    cases hok
    exact h2
  | cons e rest ih =>
    intro visible m h1 h2 h3 m' hok
    rw [processWindows] at hok
    cases hm : lookupA m e.ownerPID with
    | none =>
      simp only [hm] at hok
      exact ih visible m h1 h2 h3 m' hok
    | some app1 =>
      cases hv : lookupA visible e.number with
      | none =>
        simp only [hm, hv] at hok
        exact ih visible m h1 h2 h3 m' hok
      | some sp =>
        simp only [hm, hv] at hok
        by_cases hlay : e.layer ≠ 0
        · rw [if_pos hlay] at hok
          exact ih visible m h1 h2 h3 m' hok
        · rw [if_neg hlay] at hok
          cases hb : e.bounds with
          | none => rw [hb] at hok; cases hok
          | some b =>
            rw [hb] at hok
            have hnotmem : e.number ∉ allWindowIds m := by
              intro hmem
              rw [h3 e.number hmem] at hv
              cases hv
            have hperm := allWindowIds_modifyA_perm
              ⟨e.name.getD "", e.number, b, sp⟩ e.ownerPID m app1 h1 hm
            refine ih _ _ ?_ ?_ ?_ m' hok
            · simpa [keysA_modifyA] using h1
            · exact hperm.symm.nodup (List.nodup_cons.mpr ⟨hnotmem, h2⟩)
            · intro wid hwid
              have := hperm.mem_iff.mp hwid
              rw [lookupA_eraseA]
              rcases List.mem_cons.mp this with hw | hw
              · rw [if_pos hw]
              · rw [if_neg ?_]
                · exact h3 wid hw
                · intro hcontra
                  rw [hcontra] at hw
                  exact hnotmem hw

end macos

/-- A successful association-list lookup exhibits a member pair. -/
theorem lookupA_mem {κ ν : Type} [DecidableEq κ] :
    ∀ (m : List (κ × ν)) (k : κ) (v : ν), lookupA m k = some v → (k, v) ∈ m := by
  intro m
  induction m with
  | nil => intro k v h; simp [lookupA] at h
  | cons p rest ih =>
    intro k v h
    rw [lookupA_cons] at h
    by_cases hp : p.1 = k
    · rw [if_pos hp] at h
      injection h with h
      have hpkv : p = (k, v) := by
        obtain ⟨a, b⟩ := p
        simp only at hp h
        rw [hp, h]
      rw [← hpkv]
      exact List.mem_cons_self _ _
    · rw [if_neg hp] at h
      exact List.mem_cons_of_mem _ (ih k v h)

/-! ## Claim C7 -/

/-- C7: every window in the published inventory came from an on-screen
window-list entry with layer 0, and its window id is a member of the Space
catalog's visible set; no window violating either condition appears in the
enumeration output. -/
theorem C7_layer_space_filter (env : macos.EnumEnv) (m : List (Int × macos.App))
    (hok : macos.get_open_app_windows env = .ok m) :
    ∀ pid app w, lookupA m pid = some app → w ∈ app.windows →
      w.id ∈ keysA (macos.buildVisible env.displays) ∧
        ∃ e ∈ env.windowList.getD [], e.layer = 0 ∧ e.number = w.id := by
  intro pid app w hl hw
  cases hwl : env.windowList with
  | none =>
    unfold macos.get_open_app_windows at hok
    rw [hwl] at hok
    cases hok
  | some entries =>
    unfold macos.get_open_app_windows at hok
    rw [hwl] at hok
    rcases macos.processWindows_provenance entries (macos.buildVisible env.displays)
      (macos.get_apps env.f16 env.runningApps) m hok pid app w hl hw with
      ⟨app0, hl0, hw0⟩ | ⟨h1, e, h2, h3, h4⟩
    · have hnil : app0.windows = [] :=
        macos.get_apps_entries_windows_nil env.f16 env.runningApps (pid, app0)
          (lookupA_mem _ pid app0 hl0)
      rw [hnil] at hw0
      cases hw0
    · exact ⟨h1, e, h2, h3, h4⟩

/-- The Space/Display Catalog and on-screen window list used by the C7 and
C10 witnesses: one display with one user space holding window ids 5 and 6;
the window list reports id 5 twice (a duplicate entry) and id 6 at
layer 3. -/
def C7env : macos.EnumEnv :=
  { displays := [⟨"D1", [⟨100, 0, [5, 6]⟩]⟩]
    windowList := some
      [⟨0, 1, some "a", 5, some ⟨0, 0, 1, 1⟩⟩,
       ⟨0, 1, some "dup", 5, some ⟨0, 0, 1, 1⟩⟩,
       ⟨3, 1, some "menu", 6, some ⟨0, 0, 1, 1⟩⟩]
    runningApps := [⟨1, true, false, some "A", none⟩]
    f16 := fun _ _ => 0 }

/-- The space descriptor the catalog assigns to windows 5 and 6. -/
def C7sp : macos.Space := ⟨1, "D1", some 1, 100⟩

/-- The single window the enumeration publishes for `C7env`. -/
def C7w : macos.Window := ⟨"a", 5, ⟨0, 0, 1, 1⟩, C7sp⟩

/-- The single published app for `C7env`. -/
def C7app : macos.App := ⟨1, "A", [C7w], none⟩

/-- The published inventory for `C7env`: the duplicate entry for id 5 and
the layer-3 entry for id 6 are both discarded. -/
def C7m : List (Int × macos.App) := [(1, C7app)]

/-- C7 witness: the filter conditions applied at the concrete published
window of `C7env`. -/
theorem C7_layer_space_filter_witness :
    C7w.id ∈ keysA (macos.buildVisible C7env.displays) ∧
      ∃ e ∈ C7env.windowList.getD [], e.layer = 0 ∧ e.number = C7w.id :=
  C7_layer_space_filter C7env C7m rfl 1 C7app C7w (by decide) (by decide)

/-! ## Claim C10 -/

/-- C10: in the inventory returned by enumeration, every window id appears
at most once across all apps' window lists, even when the on-screen window
list reports the same id in several entries: attaching a window removes
its id from the catalog's visible map, so later duplicates fail the
visible-set filter and are discarded. -/
theorem C10_no_duplicate_window_ids (env : macos.EnumEnv)
    (m : List (Int × macos.App))
    (hok : macos.get_open_app_windows env = .ok m) :
    (macos.allWindowIds m).Nodup := by
  cases hwl : env.windowList with
  | none =>
    unfold macos.get_open_app_windows at hok
    rw [hwl] at hok
    cases hok
  | some entries =>
    unfold macos.get_open_app_windows at hok
    rw [hwl] at hok
    have hnil : macos.allWindowIds (macos.get_apps env.f16 env.runningApps) = [] :=
      macos.allWindowIds_nil _
        (macos.get_apps_entries_windows_nil env.f16 env.runningApps)
    refine macos.processWindows_nodup entries (macos.buildVisible env.displays)
      (macos.get_apps env.f16 env.runningApps)
      (macos.get_apps_keys_nodup env.f16 env.runningApps) ?_ ?_ m hok
    · rw [hnil]; exact List.nodup_nil
    · rw [hnil]; intro wid hwid; cases hwid

/-- C10 witness: the concrete enumeration of `C7env`, whose window list
reports id 5 twice, publishes each window id exactly once. -/
theorem C10_no_duplicate_window_ids_witness :
    (macos.allWindowIds C7m).Nodup :=
  C10_no_duplicate_window_ids C7env C7m rfl

namespace macos

/-- Byte `i` of the key-window event record, for in-range `i`. -/
theorem buildKeyEventRecord_getElem (wid flavor i : Nat) (hi : i < 0xf8) :
    (buildKeyEventRecord wid flavor)[i]? = some (recordByte wid flavor i) := by
  simp [buildKeyEventRecord, List.getElem?_map, List.getElem?_range, hi]

end macos

/-! ## Claim C8 -/

/-- C8: the key-window step builds a 0xF8-byte event record holding the
record-size field (0xf8 at offset 0x04), the record-type tag (0x10 at
offset 0x3a), the target window id as 4 native-endian bytes at offset
0x3c, and an all-ones marker over 0x20..0x30; it posts the record exactly
twice — first with flavor byte 0x01 at offset 0x08, then 0x02 — checking
the result after each post; if the first post fails the second is never
issued, the overall result is success exactly when both posts succeed,
and a failing key-window step makes the focus operation fail with the
key-window error. -/
theorem C8_key_window_record :
    (∀ wid flavor, (macos.buildKeyEventRecord wid flavor).length = 0xf8) ∧
    (∀ wid flavor,
      (macos.buildKeyEventRecord wid flavor)[0x04]? = some 0xf8 ∧
      (macos.buildKeyEventRecord wid flavor)[0x3a]? = some 0x10 ∧
      (macos.buildKeyEventRecord wid flavor)[0x08]? = some flavor ∧
      (∀ k, k < 4 →
        (macos.buildKeyEventRecord wid flavor)[0x3c + k]? = some (byteOfNat wid k)) ∧
      (∀ i, 0x20 ≤ i → i < 0x30 →
        (macos.buildKeyEventRecord wid flavor)[i]? = some 0xff)) ∧
    (∀ postRes wid,
      (postRes 0 ≠ CGError.success →
        (macos.make_key_window postRes wid).2 = [macos.buildKeyEventRecord wid 0x01] ∧
        (macos.make_key_window postRes wid).1 = postRes 0) ∧
      (postRes 0 = CGError.success →
        (macos.make_key_window postRes wid).2 =
          [macos.buildKeyEventRecord wid 0x01, macos.buildKeyEventRecord wid 0x02] ∧
        (macos.make_key_window postRes wid).1 = postRes 1) ∧
      ((macos.make_key_window postRes wid).1 = CGError.success ↔
        postRes 0 = CGError.success ∧ postRes 1 = CGError.success)) ∧
    (∀ (env : macos.FocusEnv) (pid : Int) (w : macos.Window),
      env.psnRes = 0 → env.frontRes = CGError.success →
      (macos.make_key_window env.postRes (idU32 w.id)).1 ≠ CGError.success →
      (macos.focus env pid w).1 = .error "Failed at setting key window.") := by
  refine ⟨?_, ?_, ?_, ?_⟩
  · intro wid flavor
    simp [macos.buildKeyEventRecord]
  · intro wid flavor
    refine ⟨?_, ?_, ?_, ?_, ?_⟩
    · rw [macos.buildKeyEventRecord_getElem wid flavor 0x04 (by omega)]
      rfl
    · rw [macos.buildKeyEventRecord_getElem wid flavor 0x3a (by omega)]
      rfl
    · rw [macos.buildKeyEventRecord_getElem wid flavor 0x08 (by omega)]
      rfl
    · intro k hk
      rw [macos.buildKeyEventRecord_getElem wid flavor (0x3c + k) (by omega)]
      interval_cases k <;> rfl
    · intro i h1 h2
      rw [macos.buildKeyEventRecord_getElem wid flavor i (by omega)]
      rw [macos.recordByte, if_neg (by omega), if_neg (by omega),
        if_pos ⟨h1, h2⟩]
  · intro postRes wid
    refine ⟨?_, ?_, ?_⟩
    · intro hfail
      cases hp : postRes 0 with
      | success => exact absurd hp hfail
      | failure c => exact ⟨by simp [macos.make_key_window, hp], by simp [macos.make_key_window, hp]⟩
    · intro hp
      exact ⟨by simp [macos.make_key_window, hp], by simp [macos.make_key_window, hp]⟩
    · constructor
      · intro h
        cases hp : postRes 0 with
        | failure c => simp [macos.make_key_window, hp] at h
        | success =>
          simp [macos.make_key_window, hp] at h
          exact ⟨rfl, h⟩
      · rintro ⟨h0, h1⟩
        simp [macos.make_key_window, h0, h1]
  · intro env pid w hpsn hfront hkey
    simp [macos.focus, hpsn, hfront, hkey]

/-- A post oracle whose first post fails. -/
def C8failPost : Nat → CGError := fun _ => .failure 1000

/-- Focus environment whose key-window posts fail. -/
def C8env : macos.FocusEnv :=
  ⟨0, .success, C8failPost, 10, fun _ => none⟩

/-- A window for the C8 witness. -/
def C8w : macos.Window := ⟨"t", 9, ⟨0, 0, 2, 2⟩, ⟨1, "uuid", some 1, 10⟩⟩

/-- C8 witness: the record fields, the single-post short-circuit and the
focus-level key-window error, applied at concrete inputs. -/
theorem C8_key_window_record_witness :
    (macos.buildKeyEventRecord 9 1).length = 0xf8 ∧
      (macos.buildKeyEventRecord 9 1)[0x3c + 2]? = some (byteOfNat 9 2) ∧
      (macos.buildKeyEventRecord 9 1)[0x25]? = some 0xff ∧
      (macos.make_key_window C8failPost 9).2 = [macos.buildKeyEventRecord 9 0x01] ∧
      (macos.focus C8env 1 C8w).1 = .error "Failed at setting key window." :=
  ⟨C8_key_window_record.1 9 1,
   (C8_key_window_record.2.1 9 1).2.2.2.1 2 (by omega),
   (C8_key_window_record.2.1 9 1).2.2.2.2 0x25 (by omega) (by omega),
   ((C8_key_window_record.2.2.1 C8failPost 9).1 (by decide)).1,
   C8_key_window_record.2.2.2 C8env 1 C8w rfl rfl (by decide)⟩

namespace macos

/-- `expandRGB` turns `3 * n` source bytes into `4 * n` output bytes. -/
theorem expandRGB_length : ∀ (n : Nat) (l : List Nat), l.length = 3 * n →
    (expandRGB l).length = 4 * n := by
  intro n
  induction n with
  | zero =>
    intro l hl
    have : l = [] := List.eq_nil_of_length_eq_zero (by omega)
    rw [this]
    rfl
  | succ n ih =>
    intro l hl
    match l, hl with
    | a :: b :: c :: rest, hl =>
      have hrest : rest.length = 3 * n := by
        simp only [List.length_cons] at hl
        omega
      simp only [expandRGB, List.length_cons, ih rest hrest]
      omega

/-- Dropping `4 * k` output bytes of `expandRGB` corresponds to dropping
`3 * k` source bytes. -/
theorem expandRGB_drop : ∀ (k : Nat) (l : List Nat), 3 * k ≤ l.length →
    (expandRGB l).drop (4 * k) = expandRGB (l.drop (3 * k)) := by
  intro k
  induction k with
  | zero => intro l _; rfl
  | succ k ih =>
    intro l hl
    match l, hl with
    | a :: b :: c :: rest, hl =>
      have hrest : 3 * k ≤ rest.length := by
        simp only [List.length_cons] at hl
        omega
      have h4 : 4 * (k + 1) = 4 * k + 4 := by omega
      have h3 : 3 * (k + 1) = 3 * k + 3 := by omega
      rw [h4, h3]
      simp only [expandRGB, List.drop_succ_cons]
      have : 4 * k + 4 - 4 = 4 * k := by omega
      calc (a :: b :: c :: 255 :: expandRGB rest).drop (4 * k + 4) =
            (expandRGB rest).drop (4 * k) := by
              simp [List.drop_succ_cons]
        _ = expandRGB (rest.drop (3 * k)) := ih rest hrest
        _ = expandRGB ((a :: b :: c :: rest).drop (3 * k + 3)) := by
              simp [List.drop_succ_cons]

/-- The first four output bytes of `expandRGB` on a buffer holding at
least one triple: the triple followed by full opacity. -/
theorem expandRGB_head (m : List Nat) (hm : 3 ≤ m.length) :
    (expandRGB m)[0]? = m[0]? ∧ (expandRGB m)[1]? = m[1]? ∧
      (expandRGB m)[2]? = m[2]? ∧ (expandRGB m)[3]? = some 255 := by
  match m, hm with
  | a :: b :: c :: rest, _ => simp [expandRGB]

end macos

/-! ## Claim C9 -/

/-- C9: a 32-bpp source bitmap of `W × H` pixels normalizes to an RGBA
buffer of exactly `W * H * 4` bytes identical byte-for-byte to the source
data; a 24-bpp source normalizes to `W * H * 4` bytes in which every 4th
byte is 255 and the RGB bytes are the source triples; any bit depth other
than 24, 32 or 64 yields nothing. -/
theorem C9_icon_normalization (f16 : Nat → Nat → Nat) (img : macos.CGImageData)
    (raw : List Nat) (hdata : img.dataRes = some raw) :
    (img.bitsPerPixel = 32 → raw.length = img.width * img.height * 4 →
      macos.ns_image_to_color f16 img = some ⟨img.width, img.height, raw⟩ ∧
        raw.length = img.width * img.height * 4) ∧
    (img.bitsPerPixel = 24 → raw.length = img.width * img.height * 3 →
      ∃ ci, macos.ns_image_to_color f16 img = some ci ∧
        ci.pixels.length = img.width * img.height * 4 ∧
        ∀ k, k < img.width * img.height →
          ci.pixels[4 * k]? = raw[3 * k]? ∧
          ci.pixels[4 * k + 1]? = raw[3 * k + 1]? ∧
          ci.pixels[4 * k + 2]? = raw[3 * k + 2]? ∧
          ci.pixels[4 * k + 3]? = some 255) ∧
    (img.bitsPerPixel ≠ 24 → img.bitsPerPixel ≠ 32 → img.bitsPerPixel ≠ 64 →
      macos.ns_image_to_color f16 img = none) := by
  refine ⟨?_, ?_, ?_⟩
  · intro hbpp hlen
    exact ⟨by simp [macos.ns_image_to_color, hdata, hbpp, macos.ColorImage.from_rgba], hlen⟩
  · intro hbpp hlen
    refine ⟨⟨img.width, img.height, macos.expandRGB raw⟩, ?_, ?_, ?_⟩
    · simp [macos.ns_image_to_color, hdata, hbpp, macos.ColorImage.from_rgb]
    · have := macos.expandRGB_length (img.width * img.height) raw (by omega)
      simp only at this ⊢
      omega
    · intro k hk
      have hdrop : (macos.expandRGB raw).drop (4 * k) =
          macos.expandRGB (raw.drop (3 * k)) :=
        macos.expandRGB_drop k raw (by omega)
      have hrem : 3 ≤ (raw.drop (3 * k)).length := by
        rw [List.length_drop]
        omega
      have hhead := macos.expandRGB_head (raw.drop (3 * k)) hrem
      have hidx : ∀ j : Nat, (macos.expandRGB raw)[4 * k + j]? =
          (macos.expandRGB (raw.drop (3 * k)))[j]? := by
        intro j
        rw [← hdrop, List.getElem?_drop]
      have hsrc : ∀ j : Nat, (raw.drop (3 * k))[j]? = raw[3 * k + j]? := by
        intro j
        rw [List.getElem?_drop]
      refine ⟨?_, ?_, ?_, ?_⟩
      · have h0 := (hidx 0).trans (hhead.1.trans (hsrc 0))
        simpa using h0
      · exact (hidx 1).trans (hhead.2.1.trans (hsrc 1))
      · exact (hidx 2).trans (hhead.2.2.1.trans (hsrc 2))
      · exact (hidx 3).trans hhead.2.2.2
  · intro h24 h32 h64
    simp only [macos.ns_image_to_color, hdata]

/-- The 2×1, 32-bpp source bitmap of the C9 witness. -/
def C9img32 : macos.CGImageData := ⟨2, 1, 8, 32, some [1, 2, 3, 4, 5, 6, 7, 8]⟩

/-- The 2×1, 24-bpp source bitmap of the C9 witness. -/
def C9img24 : macos.CGImageData := ⟨2, 1, 6, 24, some [1, 2, 3, 4, 5, 6]⟩

/-- A source bitmap with unsupported bit depth 16. -/
def C9img16 : macos.CGImageData := ⟨2, 1, 6, 16, some [1, 2, 3, 4, 5, 6]⟩

/-- C9 witness: the three branches applied at concrete bitmaps — the
32-bpp buffer passes through unchanged, the 24-bpp expansion appends 255
after the second pixel's triple, and depth 16 yields nothing. -/
theorem C9_icon_normalization_witness :
    macos.ns_image_to_color (fun _ _ => 0) C9img32 = some ⟨2, 1, [1, 2, 3, 4, 5, 6, 7, 8]⟩ ∧
      (∃ ci, macos.ns_image_to_color (fun _ _ => 0) C9img24 = some ci ∧
        ci.pixels.length = 2 * 1 * 4 ∧ ci.pixels[4 * 1 + 3]? = some 255) ∧
      macos.ns_image_to_color (fun _ _ => 0) C9img16 = none := by
  refine ⟨?_, ?_, ?_⟩
  · exact ((C9_icon_normalization (fun _ _ => 0) C9img32 [1, 2, 3, 4, 5, 6, 7, 8] rfl).1
      rfl (by decide)).1
  · obtain ⟨ci, h1, h2, h3⟩ :=
      (C9_icon_normalization (fun _ _ => 0) C9img24 [1, 2, 3, 4, 5, 6] rfl).2.1
        rfl (by decide)
    exact ⟨ci, h1, h2, (h3 1 (by decide)).2.2.2⟩
  · exact (C9_icon_normalization (fun _ _ => 0) C9img16 [1, 2, 3, 4, 5, 6] rfl).2.2
      (by decide) (by decide) (by decide)
